import Mathlib

/-!
Verification of the data pipeline of the Egypt-Trade-Analysis dashboard.

The source is a React application; its pure core is embedded here:
JSON-like JavaScript runtime values, the trade-record normalizer
(tradeData), the indicator normalizer (wbData in the self-contained app,
formattedWB in the precomputed-data variant), the aggregation helpers of
overviewStats (export and import totals, partner totals, concentration
risk, waterfall), the commodity rollup of commodityStats, and the linear
forecaster (calculateLinearRegression, forecastData).

Modelling conventions:
- JavaScript numbers are rationals; JSON input cannot contain NaN, and a
  NaN produced by a failed parse is an Option none.
- A thrown TypeError (property access on null or undefined, or a string
  method called on a non-string) is Except.error.
- Division is rational division; every division in the embedded code is
  either guarded by a positivity test in the source or has a nonzero
  denominator on the inputs the source feeds it (distinct years).
-/

/-- JSON-like JavaScript runtime values, plus undefined. -/
inductive Js where
  | null
  | undefined
  | bool (b : Bool)
  | num (q : ℚ)
  | str (s : String)
  | arr (elems : List Js)
  | obj (fields : List (String × Js))

/-- JavaScript truthiness of a value (the inputs modelled here contain no NaN). -/
def truthy : Js → Bool
  | .null => false
  | .undefined => false
  | .bool b => b
  | .num q => q != 0
  | .str s => s != ""
  | .arr _ => true
  | .obj _ => true

/-- The value of a || b in JavaScript. -/
def jsOr (a b : Js) : Js := if truthy a then a else b

/-- Field lookup in an object literal (keys are assumed distinct, as in the JSON payloads). -/
def lookupField (fields : List (String × Js)) (k : String) : Js :=
  match fields with
  | [] => .undefined
  | (k0, v) :: rest => if k0 = k then v else lookupField rest k

/-- Property access v.k; JavaScript throws a TypeError when v is null or
undefined, modelled as Except.error; other non-objects yield undefined. -/
def getFieldE : Js → String → Except Unit Js
  | .null, _ => .error ()
  | .undefined, _ => .error ()
  | .obj fields, k => .ok (lookupField fields k)
  | _, _ => .ok .undefined

/-- Total variant of property access, used to state results about rows
that are known not to be null or undefined. -/
def getFieldT : Js → String → Js
  | .obj fields, k => lookupField fields k
  | _, _ => .undefined

/-- Whether a value is a string. -/
def isStrJs : Js → Bool
  | .str _ => true
  | _ => false

/-- Decimal digits of a natural number, as printed by JavaScript. -/
def natDigits (n : ℕ) : String := toString n

/-- Fractional decimal digits of num/den (num < den), stopping at a zero
remainder or after the fuel runs out. -/
def fracDigits : ℕ → ℕ → ℕ → String
  | 0, _, _ => ""
  | _, _, 0 => ""
  | fuel + 1, den, num =>
      let num10 := num * 10
      natDigits (num10 / den) ++ fracDigits fuel den (num10 % den)

/-- Decimal rendering of a rational, approximating JavaScript number
printing: exact for terminating decimals, capped at 20 fractional digits
where JavaScript would print a shortest round-tripping double.  Written
on the numerator and denominator directly (rationals are stored
reduced). -/
def ratToString (q : ℚ) : String :=
  let sign := if q.num < 0 then "-" else ""
  let n := q.num.natAbs
  let ip := n / q.den
  let rem := n % q.den
  if rem = 0 then sign ++ natDigits ip
  else sign ++ natDigits ip ++ "." ++ fracDigits 20 q.den rem

mutual

/-- String conversion of a JavaScript value, as performed by String(v)
and by implicit coercion inside parseInt and parseFloat. -/
def jsToString : Js → String
  | .null => "null"
  | .undefined => "undefined"
  | .bool true => "true"
  | .bool false => "false"
  | .num q => ratToString q
  | .str s => s
  | .arr xs => arrJoin xs
  | .obj _ => "[object Object]"

/-- Array-to-string conversion: elements joined by commas, with null and
undefined elements rendered empty, as Array.prototype.join does. -/
def arrJoin : List Js → String
  | [] => ""
  | [.null] => ""
  | [.undefined] => ""
  | [v] => jsToString v
  | .null :: rest => "," ++ arrJoin rest
  | .undefined :: rest => "," ++ arrJoin rest
  | v :: rest => jsToString v ++ "," ++ arrJoin rest

end

/-- Drop leading whitespace characters. -/
def skipWs (cs : List Char) : List Char := cs.dropWhile (fun c => c.isWhitespace)

/-- Numeric value of a run of decimal digit characters. -/
def digitsVal (ds : List Char) : ℕ := ds.foldl (fun a c => a * 10 + (c.toNat - 48)) 0

/-- JavaScript parseInt on a string, radix 10 (hex literals and exotic
numerals are not modelled): skip leading whitespace, an optional sign,
then the longest leading run of decimal digits; an empty run is NaN,
modelled as none. -/
def parseIntStr (s : String) : Option ℤ :=
  let cs := skipWs s.data
  let signed : ℤ × List Char :=
    match cs with
    | '-' :: rest => (-1, rest)
    | '+' :: rest => (1, rest)
    | _ => (1, cs)
  let ds := signed.2.takeWhile (fun c => c.isDigit)
  if ds.isEmpty then none else some (signed.1 * (digitsVal ds : ℤ))

/-- JavaScript parseFloat on a string (the "Infinity" literal is not
modelled): skip leading whitespace, an optional sign, digits with an
optional fractional part (at least one digit overall), then an optional
exponent that only counts when digits follow the e; no digits is NaN,
modelled as none. -/
def parseFloatStr (s : String) : Option ℚ :=
  let cs := skipWs s.data
  let signed : ℤ × List Char :=
    match cs with
    | '-' :: rest => (-1, rest)
    | '+' :: rest => (1, rest)
    | _ => (1, cs)
  let intDs := signed.2.takeWhile (fun c => c.isDigit)
  let cs1 := signed.2.dropWhile (fun c => c.isDigit)
  let fracPart : List Char × List Char :=
    match cs1 with
    | '.' :: rest => (rest.takeWhile (fun c => c.isDigit), rest.dropWhile (fun c => c.isDigit))
    | _ => ([], cs1)
  if intDs.isEmpty && fracPart.1.isEmpty then none
  else
    let mant : ℤ := signed.1 * (digitsVal (intDs ++ fracPart.1) : ℤ)
    let expo : ℤ :=
      match fracPart.2 with
      | e :: rest =>
        if e = 'e' || e = 'E' then
          let esigned : ℤ × List Char :=
            match rest with
            | '-' :: r => (-1, r)
            | '+' :: r => (1, r)
            | _ => (1, rest)
          let eDs := esigned.2.takeWhile (fun c => c.isDigit)
          if eDs.isEmpty then 0 else esigned.1 * (digitsVal eDs : ℤ)
        else 0
      | [] => 0
    let scale : ℤ := expo - fracPart.1.length
    some (if 0 ≤ scale then mkRat (mant * (10 : ℤ) ^ scale.toNat) 1
          else mkRat mant ((10 : ℕ) ^ (-scale).toNat))

/-- parseInt applied to an arbitrary value: the argument is coerced to a
string first. -/
def jsParseInt (v : Js) : Option ℤ := parseIntStr (jsToString v)

/-- parseFloat applied to an arbitrary value: the argument is coerced to
a string first; none models NaN. -/
def jsParseFloat (v : Js) : Option ℚ := parseFloatStr (jsToString v)

/-- Remove every comma, as the replace of the comma regex with the global flag does. -/
def removeCommas (s : String) : String := ⟨s.data.filter (fun c => c != ',')⟩

/-- String.prototype.trim: whitespace removed from both ends. -/
def jsTrim (s : String) : String :=
  ⟨((s.data.dropWhile (fun c => c.isWhitespace)).reverse.dropWhile
      (fun c => c.isWhitespace)).reverse⟩

/-- safeParseFloat from the source: native numbers pass through, other
falsy values give 0, and otherwise the value is stringified, stripped of
commas, trimmed and parsed, with a NaN parse resolving to 0. -/
def safeParseFloat (val : Js) : ℚ :=
  match val with
  | .num q => q
  | _ =>
    if !truthy val then 0
    else
      match parseFloatStr (jsTrim (removeCommas (jsToString val))) with
      | none => 0
      | some q => q

/-- The hardcoded country-to-region table of getRegionFromCountry. -/
def regionTable : List (String × String) :=
  [("Turkey", "MENA"), ("Saudi Arabia", "MENA"), ("United Arab Emirates", "MENA"),
   ("Libya", "MENA"), ("Jordan", "MENA"), ("Egypt", "MENA"),
   ("Italy", "Europe"), ("Germany", "Europe"), ("Spain", "Europe"),
   ("United Kingdom", "Europe"), ("France", "Europe"), ("Russia", "Europe"),
   ("Ukraine", "Europe"),
   ("USA", "Americas"), ("Canada", "Americas"), ("Brazil", "Americas"),
   ("China", "Asia"), ("India", "Asia"), ("South Korea", "Asia"), ("Japan", "Asia")]

/-- getRegionFromCountry from the source: falsy names map to the
catch-all region, known names to their table entry, anything else (a
non-string key is coerced to a string by the object lookup) to the
catch-all region. -/
def getRegionFromCountry (country : Js) : String :=
  if !truthy country then "International"
  else
    match regionTable.lookup (jsToString country) with
    | some r => r
    | none => "International"

/-- Lower-casing of a string, character by character (the inputs of
interest are ASCII). -/
def lowerStr (s : String) : String := ⟨s.data.map Char.toLower⟩

/-- Whether pat occurs as a contiguous prefix of s. -/
def listStartsWith : List Char → List Char → Bool
  | _, [] => true
  | [], _ :: _ => false
  | c :: cs, p :: ps => c == p && listStartsWith cs ps

/-- Whether pat occurs as a contiguous sublist of s. -/
def listContains (s pat : List Char) : Bool :=
  match s with
  | [] => pat.isEmpty
  | _ :: rest => listStartsWith s pat || listContains rest pat

/-- String.prototype.includes: substring containment. -/
def containsSub (s pat : String) : Bool := listContains s.data pat.data

/-- The includes test applied to a record field.  In JavaScript, calling
the string method on a non-string value throws; the aggregation results
below are only claimed for records whose flow is a string, which the
stated hypotheses and concrete inputs make explicit, so non-strings are
mapped to false here rather than threading exceptions through every sum. -/
def jsIncludes (v : Js) (pat : String) : Bool :=
  match v with
  | .str s => containsSub s pat
  | _ => false

/-- toLowerCase as an exception-producing operation: defined exactly on
strings, a TypeError otherwise. -/
def jsToLowerE : Js → Except Unit String
  | .str s => .ok (lowerStr s)
  | _ => .error ()

/-- The string content of a value, for contexts where the source only
ever sees strings (records that survived the commodity filter). -/
def jsAsStr : Js → String
  | .str s => s
  | _ => ""

/-- Canonical trade record, as built by the tradeData normalizer.  The
flow, partner and commodity fields keep whatever JavaScript value the
field chain produced (a string on well-formed payloads). -/
structure TradeRecord where
  Year : ℤ
  Flow : Js
  Partner : Js
  Region : String
  Commodity : Js
  Value : ℚ
  Weight : ℚ

/-- One row of the tradeData normalizer (the body of the map in the
source).  Property access on a null or undefined row throws. -/
def normTradeRow (row : Js) : Except Unit TradeRecord := do
  let y1 ← getFieldE row "Year"
  let y2 ← getFieldE row "year_of_trade"
  let year := jsOr y1 y2
  let f1 ← getFieldE row "Flow_Description"
  let f2 ← getFieldE row "flow_description"
  let flow := jsOr f1 (jsOr f2 (.str "Unknown"))
  let p1 ← getFieldE row "Partner_Country"
  let p2 ← getFieldE row "partner_country_name"
  let partner := jsOr p1 (jsOr p2 (.str "Unknown"))
  let c1 ← getFieldE row "Traded_Commodities"
  let c2 ← getFieldE row "commodity_description"
  let commodity := jsOr c1 (jsOr c2 (.str "Unknown"))
  let tv ← getFieldE row "Trade_Value"
  let w ← getFieldE row "WeightofTradedGoods"
  pure
    { Year := (jsParseInt year).getD 0
      Flow := flow
      Partner := partner
      Region := getRegionFromCountry partner
      Commodity := commodity
      Value := safeParseFloat tv
      Weight := safeParseFloat w }

/-- Total counterpart of normTradeRow, used to state results about rows
that are not null or undefined; it agrees with normTradeRow there. -/
def normRowPure (row : Js) : TradeRecord :=
  let year := jsOr (getFieldT row "Year") (getFieldT row "year_of_trade")
  let flow := jsOr (getFieldT row "Flow_Description")
    (jsOr (getFieldT row "flow_description") (.str "Unknown"))
  let partner := jsOr (getFieldT row "Partner_Country")
    (jsOr (getFieldT row "partner_country_name") (.str "Unknown"))
  let commodity := jsOr (getFieldT row "Traded_Commodities")
    (jsOr (getFieldT row "commodity_description") (.str "Unknown"))
  { Year := (jsParseInt year).getD 0
    Flow := flow
    Partner := partner
    Region := getRegionFromCountry partner
    Commodity := commodity
    Value := safeParseFloat (getFieldT row "Trade_Value")
    Weight := safeParseFloat (getFieldT row "WeightofTradedGoods") }

/-- Array.prototype.map over the rows, stopping at the first thrown error. -/
def mapNorm : List Js → Except Unit (List TradeRecord)
  | [] => .ok []
  | r :: rest => do
      let t ← normTradeRow r
      let ts ← mapNorm rest
      pure (t :: ts)

/-- The second filter of tradeData: drop records whose lower-cased
commodity text contains "all commodities"; lower-casing a non-string
commodity throws. -/
def filterComm : List TradeRecord → Except Unit (List TradeRecord)
  | [] => .ok []
  | d :: rest => do
      let lc ← jsToLowerE d.Commodity
      let rest2 ← filterComm rest
      pure (if containsSub lc "all commodities" then rest2 else d :: rest2)

/-- tradeData from the source: a falsy or non-array input yields the
empty list; an array is mapped row-wise to trade records, then filtered
to positive years and non-aggregate commodity lines. -/
def tradeData (input : Js) : Except Unit (List TradeRecord) :=
  if !truthy input then .ok []
  else
    match input with
    | .arr rows => do
        let recs ← mapNorm rows
        filterComm (recs.filter (fun d => 0 < d.Year))
    | _ => .ok []

/-- The year filter producing currentYearData. -/
def currentYearData (recs : List TradeRecord) (year : ℤ) : List TradeRecord :=
  recs.filter (fun r => r.Year == year)

/-- The exports accumulator of overviewStats: a record is added exactly
when its flow description contains the substring Export. -/
def exportsTotal (recs : List TradeRecord) : ℚ :=
  recs.foldl (fun acc r => if jsIncludes r.Flow "Export" then acc + r.Value else acc) 0

/-- The imports accumulator of overviewStats: a record is added exactly
when its flow description contains the substring Import. -/
def importsTotal (recs : List TradeRecord) : ℚ :=
  recs.foldl (fun acc r => if jsIncludes r.Flow "Import" then acc + r.Value else acc) 0

/-- One update of the partnerTotals dictionary: add v under key k,
creating the entry at the end on first sight, as the source's object
insertion does. -/
def bump (m : List (String × ℚ)) (k : String) (v : ℚ) : List (String × ℚ) :=
  match m with
  | [] => [(k, v)]
  | (k0, v0) :: rest => if k0 = k then (k0, v0 + v) :: rest else (k0, v0) :: bump rest k v

/-- partnerTotals of overviewStats: every record's value summed per
partner (regardless of flow direction); object keys are strings, so a
partner value is coerced to a string as the source's dictionary does. -/
def partnerTotals (recs : List TradeRecord) : List (String × ℚ) :=
  recs.foldl (fun m r => bump m (jsToString r.Partner) r.Value) []

/-- top3Sum of overviewStats: partner totals sorted descending (the
source sorts with a descending comparator; a stable structural sort
models it), first three summed. -/
def top3Sum (recs : List TradeRecord) : ℚ :=
  ((((partnerTotals recs).map Prod.snd).insertionSort (fun a b => b ≤ a)).take 3).sum

/-- totalVol of overviewStats: exports plus imports. -/
def totalVol (recs : List TradeRecord) : ℚ := exportsTotal recs + importsTotal recs

/-- concentrationRisk of overviewStats: share of the three largest
partner totals in the selected-year trade volume, as a percentage, and 0
when the volume is not positive. -/
def concentrationRisk (recs : List TradeRecord) : ℚ :=
  if 0 < totalVol recs then top3Sum recs / totalVol recs * 100 else 0

/-- One bar of the waterfall chart. -/
structure WEntry where
  name : String
  value : ℚ
  fill : String

/-- The export-colored fill of the source's color table. -/
def exportColor : String := "#10b981"

/-- The import-colored fill of the source's color table. -/
def importColor : String := "#ef4444"

/-- The waterfall of overviewStats, built from the selected-year export
and import totals: exports positive, imports negated, net with a fill
chosen by the strict sign test of the source. -/
def waterfall (exports imports : ℚ) : List WEntry :=
  [{ name := "Exports", value := exports, fill := exportColor },
   { name := "Imports", value := -imports, fill := importColor },
   { name := "Net", value := exports - imports,
     fill := if 0 < exports - imports then exportColor else importColor }]

/-- One point of the yearly history consumed by the forecaster. -/
structure YearPoint where
  year : ℤ
  exports : ℚ
  imports : ℚ

/-- calculateLinearRegression from the source, with the metric selected
by key.  The forEach accumulates the four sums; the division is rational
(on the histories the source builds, years are distinct, so the
denominator of the slope is nonzero). -/
def calculateLinearRegression (data : List YearPoint) (key : YearPoint → ℚ) : ℚ × ℚ :=
  let n := data.length
  if n < 2 then (0, match data with | [] => 0 | p :: _ => key p)
  else
    let sumX : ℚ := (data.map (fun p => (p.year : ℚ))).sum
    let sumY : ℚ := (data.map key).sum
    let sumXY : ℚ := (data.map (fun p => (p.year : ℚ) * key p)).sum
    let sumXX : ℚ := (data.map (fun p => (p.year : ℚ) * (p.year : ℚ))).sum
    let slope := ((n : ℚ) * sumXY - sumX * sumY) / ((n : ℚ) * sumXX - sumX * sumX)
    (slope, (sumY - slope * sumX) / (n : ℚ))

/-- One point of the forecast chart; historical points carry no
isForecast flag in the source, which reads as false. -/
structure ForecastPoint where
  year : ℤ
  exports : ℚ
  imports : ℚ
  isForecast : Bool

/-- A historical year total viewed as a chart point. -/
def toHistPoint (p : YearPoint) : ForecastPoint :=
  { year := p.year, exports := p.exports, imports := p.imports, isForecast := false }

/-- forecastData from the source: empty history gives an empty chart;
otherwise the history followed by two projected points at the last
historical year plus one and plus two, from independent export
and import fits. -/
def forecastData (history : List YearPoint) : List ForecastPoint :=
  if history.isEmpty then []
  else
    let expReg := calculateLinearRegression history (fun p => p.exports)
    let impReg := calculateLinearRegression history (fun p => p.imports)
    let lastYear := (history.getLastD { year := 0, exports := 0, imports := 0 }).year
    let projections := [lastYear + 1, lastYear + 2].map (fun y =>
      { year := y, exports := expReg.1 * (y : ℚ) + expReg.2,
        imports := impReg.1 * (y : ℚ) + impReg.2, isForecast := true })
    history.map toHistPoint ++ projections

/-- One merged indicator entry of the self-contained app's wbData. -/
structure WBEntry where
  Year : ℤ
  GDP : ℚ
  Inflation : ℚ
  deriving DecidableEq

/-- Create the zero-initialized entry for a year on first sight, at the
end, as the source's dictionary insertion does. -/
def wbEnsure (m : List WBEntry) (y : ℤ) : List WBEntry :=
  if m.any (fun e => e.Year == y) then m else m ++ [{ Year := y, GDP := 0, Inflation := 0 }]

/-- Write the GDP value of the entry for year y (last write wins). -/
def wbSetGDP (m : List WBEntry) (y : ℤ) (v : ℚ) : List WBEntry :=
  m.map (fun e => if e.Year == y then { e with GDP := v } else e)

/-- Write the Inflation value of the entry for year y (last write wins). -/
def wbSetInfl (m : List WBEntry) (y : ℤ) (v : ℚ) : List WBEntry :=
  m.map (fun e => if e.Year == y then { e with Inflation := v } else e)

/-- JavaScript strict equality of a value against a string literal. -/
def jsSEqStr (v : Js) (s : String) : Bool :=
  match v with
  | .str t => t == s
  | _ => false

/-- The per-row update of wbData after the year has parsed: ensure the
year entry exists, then write GDP or Inflation only on an exact
indicator-code match against one of the two spellings per indicator. -/
def wbApply (m : List WBEntry) (y : ℤ) (code value : Js) : List WBEntry :=
  let m1 := wbEnsure m y
  let v := safeParseFloat value
  let m2 :=
    if jsSEqStr code "NY.GDP.MKTP.KD.ZG" || jsSEqStr code "WB_WDI_NY_GDP_MKTP_KD_ZG"
    then wbSetGDP m1 y v else m1
  if jsSEqStr code "FP.CPI.TOTL.ZG" || jsSEqStr code "WB_WDI_FP_CPI_TOTL_ZG"
  then wbSetInfl m2 y v else m2

/-- One row of the wbData forEach: parse the year (falsy years skip the
row), then apply the indicator write. -/
def wbProcessRow (m : List WBEntry) (row : Js) : Except Unit (List WBEntry) := do
  let y1 ← getFieldE row "Year"
  let y2 ← getFieldE row "year_of_trade"
  match jsParseInt (jsOr y1 y2) with
  | none => pure m
  | some y =>
    if y = 0 then pure m
    else do
      let c1 ← getFieldE row "Indicator_Code"
      let c2 ← getFieldE row "indicator_code"
      let v ← getFieldE row "Indicator_Value"
      pure (wbApply m y (jsOr c1 c2) v)

/-- The forEach of wbData over all rows. -/
def wbFold : List WBEntry → List Js → Except Unit (List WBEntry)
  | m, [] => .ok m
  | m, row :: rest => do
      let m1 ← wbProcessRow m row
      wbFold m1 rest

/-- wbData from the source: falsy or non-array input is empty; otherwise
indicator rows merge into one entry per year, sorted ascending by year. -/
def wbData (input : Js) : Except Unit (List WBEntry) :=
  if !truthy input then .ok []
  else
    match input with
    | .arr rows => do
        let m ← wbFold [] rows
        pure (m.insertionSort (fun a b => a.Year ≤ b.Year))
    | _ => .ok []

/-- One merged indicator entry of the precomputed variant's formattedWB;
none models a NaN stored by the bare parseFloat of that variant. -/
structure WBEntryF where
  Year : ℤ
  GDP : Option ℚ
  Inflation : Option ℚ
  deriving DecidableEq

/-- Entry creation for formattedWB. -/
def fwEnsure (m : List WBEntryF) (y : ℤ) : List WBEntryF :=
  if m.any (fun e => e.Year == y) then m
  else m ++ [{ Year := y, GDP := some 0, Inflation := some 0 }]

/-- GDP write for formattedWB. -/
def fwSetGDP (m : List WBEntryF) (y : ℤ) (v : Option ℚ) : List WBEntryF :=
  m.map (fun e => if e.Year == y then { e with GDP := v } else e)

/-- Inflation write for formattedWB. -/
def fwSetInfl (m : List WBEntryF) (y : ℤ) (v : Option ℚ) : List WBEntryF :=
  m.map (fun e => if e.Year == y then { e with Inflation := v } else e)

/-- The test code && code.includes(pat): false on falsy codes, substring
containment on strings, a TypeError on truthy non-strings. -/
def jsStrIncludesE (v : Js) (pat : String) : Except Unit Bool :=
  if !truthy v then .ok false
  else
    match v with
    | .str s => .ok (containsSub s pat)
    | _ => .error ()

/-- The per-row update of formattedWB after the year has parsed: the
indicator match is by substring, not exact equality. -/
def fwApply (m : List WBEntryF) (y : ℤ) (code value : Js) : Except Unit (List WBEntryF) := do
  let m1 := fwEnsure m y
  let v := jsParseFloat value
  let g1 ← jsStrIncludesE code "GDP"
  let g2 ← jsStrIncludesE code "NY.GDP"
  let m2 := if g1 || g2 then fwSetGDP m1 y v else m1
  let i1 ← jsStrIncludesE code "CPI"
  let i2 ← jsStrIncludesE code "FP.CPI"
  pure (if i1 || i2 then fwSetInfl m2 y v else m2)

/-- One row of the formattedWB forEach. -/
def fwProcessRow (m : List WBEntryF) (row : Js) : Except Unit (List WBEntryF) := do
  let y1 ← getFieldE row "Year"
  let y2 ← getFieldE row "year_of_trade"
  match jsParseInt (jsOr y1 y2) with
  | none => pure m
  | some y =>
    if y = 0 then pure m
    else do
      let c1 ← getFieldE row "Indicator_Code"
      let c2 ← getFieldE row "indicator_code"
      let v1 ← getFieldE row "Indicator_Value"
      let v2 ← getFieldE row "indicator_value"
      fwApply m y (jsOr c1 c2) (jsOr v1 v2)

/-- The forEach of formattedWB over all rows. -/
def fwFold : List WBEntryF → List Js → Except Unit (List WBEntryF)
  | m, [] => .ok m
  | m, row :: rest => do
      let m1 ← fwProcessRow m row
      fwFold m1 rest

/-- formattedWB from the precomputed-data variant: empty on an empty (or
non-array) state, otherwise the same merge shape as wbData but with the
substring indicator match. -/
def formattedWB (input : Js) : Except Unit (List WBEntryF) :=
  match input with
  | .arr [] => .ok []
  | .arr rows => do
      let m ← fwFold [] rows
      pure (m.insertionSort (fun a b => a.Year ≤ b.Year))
  | _ => .ok []

/-- Everything before the first semicolon, as split on the semicolon and
taking the head does. -/
def takeBeforeSemi (s : String) : String := ⟨s.data.takeWhile (fun c => c != ';')⟩

/-- The replace of the anchored code regex (one or more digits, optional
whitespace, a dash, optional whitespace): removed when the whole pattern
matches at the start of the string, kept otherwise.  The greedy scan
below is equivalent to the regex since digits, whitespace and the dash
are disjoint character classes. -/
def stripLeadCode (s : String) : String :=
  let cs := s.data
  let ds := cs.takeWhile (fun c => c.isDigit)
  let rest2 := (cs.dropWhile (fun c => c.isDigit)).dropWhile (fun c => c.isWhitespace)
  if ds.isEmpty then s
  else
    match rest2 with
    | '-' :: rest3 => ⟨rest3.dropWhile (fun c => c.isWhitespace)⟩
    | _ => s

/-- The commodity display-name cleanup of commodityStats. -/
def cleanCommodityName (s : String) : String := stripLeadCode (takeBeforeSemi s)

/-- One group of the commodity rollup. -/
structure CGroup where
  name : String
  value : ℚ
  weight : ℚ

/-- One update of the commodity groups dictionary. -/
def bumpCG (m : List CGroup) (k : String) (v w : ℚ) : List CGroup :=
  match m with
  | [] => [{ name := k, value := v, weight := w }]
  | g :: rest =>
    if g.name = k then { g with value := g.value + v, weight := g.weight + w } :: rest
    else g :: bumpCG rest k v w

/-- The grouping step of commodityStats: records grouped by the cleaned
commodity name (the cleanup happens here, not in the normalizer),
summing value and weight. -/
def commodityGroups (recs : List TradeRecord) : List CGroup :=
  recs.foldl (fun m r => bumpCG m (cleanCommodityName (jsAsStr r.Commodity)) r.Value r.Weight) []

/-- The sorted commodity rollup (descending by value). -/
def commodityStatsSorted (recs : List TradeRecord) : List CGroup :=
  (commodityGroups recs).insertionSort (fun a b => b.value ≤ a.value)

/-- The top-10 truncation of the commodity rollup. -/
def commodityTop10 (recs : List TradeRecord) : List CGroup :=
  (commodityStatsSorted recs).take 10

/-! Concrete records and rows used by witnesses and counterexamples. -/

/-- A record whose flow is the Unknown default: it is counted in the
partner totals but in neither the export nor the import bucket. -/
def recUnknownFlow : TradeRecord :=
  { Year := 2020, Flow := Js.str "Unknown", Partner := Js.str "Partner A",
    Region := "International", Commodity := Js.str "Goods", Value := 100, Weight := 0 }

/-- A small export record for the same year. -/
def recSmallExport : TradeRecord :=
  { Year := 2020, Flow := Js.str "Export", Partner := Js.str "Partner B",
    Region := "International", Commodity := Js.str "Goods", Value := 1, Weight := 0 }

/-- A record whose flow description contains both classification substrings. -/
def recBothFlows : TradeRecord :=
  { Year := 2020, Flow := Js.str "Export and Import", Partner := Js.str "Partner C",
    Region := "International", Commodity := Js.str "Goods", Value := 5, Weight := 0 }

/-- A raw trade row with every field present (value and weight numeric). -/
def oilRow : Js := Js.obj
  [("Year", Js.num 2020), ("Flow_Description", Js.str "Export"),
   ("Partner_Country", Js.str "Italy"), ("Traded_Commodities", Js.str "12 - Oil; crude"),
   ("Trade_Value", Js.num 5), ("WeightofTradedGoods", Js.num 2)]

/-- The canonical record the normalizer builds from oilRow. -/
def recOil : TradeRecord :=
  { Year := 2020, Flow := Js.str "Export", Partner := Js.str "Italy",
    Region := "Europe", Commodity := Js.str "12 - Oil; crude", Value := 5, Weight := 2 }

/-- The commodity-filter acceptance test, on the commodity value of a
kept record (a string whose lower-casing avoids the aggregate marker). -/
def commodityKept (v : Js) : Bool :=
  match v with
  | .str s => !containsSub (lowerStr s) "all commodities"
  | _ => false

/-- The one-point history used by the C8 witness. -/
def histW : List YearPoint := [{ year := 2020, exports := 1, imports := 2 }]

/-- The spec example's GDP-growth indicator row for 2021. -/
def wbRowG : Js := Js.obj
  [("Year", Js.num 2021), ("Indicator_Code", Js.str "NY.GDP.MKTP.KD.ZG"),
   ("Indicator_Value", Js.str "4.5")]

/-- The spec example's inflation indicator row for 2021. -/
def wbRowC : Js := Js.obj
  [("Year", Js.num 2021), ("Indicator_Code", Js.str "FP.CPI.TOTL.ZG"),
   ("Indicator_Value", Js.str "6.2")]

/-- An indicator row whose code merely contains GDP as a substring. -/
def fwRowCex : Js := Js.obj
  [("Year", Js.num 2021), ("Indicator_Code", Js.str "XGDPX"),
   ("Indicator_Value", Js.str "3")]

/-! Helper lemmas about the aggregation sums. -/

theorem foldl_if_eq_sum (f : TradeRecord → Bool) :
    ∀ (recs : List TradeRecord) (a : ℚ),
      recs.foldl (fun acc r => if f r then acc + r.Value else acc) a
        = a + (recs.map (fun r => if f r then r.Value else 0)).sum
  | [], a => by simp
  | r :: rest, a => by
      by_cases h : f r <;>
        simp [List.foldl_cons, h, foldl_if_eq_sum f rest, add_assoc]

theorem exportsTotal_eq_sum (recs : List TradeRecord) :
    exportsTotal recs
      = (recs.map (fun r => if jsIncludes r.Flow "Export" then r.Value else 0)).sum := by
  simpa [exportsTotal] using foldl_if_eq_sum (fun r => jsIncludes r.Flow "Export") recs 0

theorem importsTotal_eq_sum (recs : List TradeRecord) :
    importsTotal recs
      = (recs.map (fun r => if jsIncludes r.Flow "Import" then r.Value else 0)).sum := by
  simpa [importsTotal] using foldl_if_eq_sum (fun r => jsIncludes r.Flow "Import") recs 0

theorem sum_map_add_split (l : List TradeRecord) (f g : TradeRecord → ℚ) :
    (l.map (fun x => f x + g x)).sum = (l.map f).sum + (l.map g).sum := by
  induction l with
  | nil => simp
  | cons x xs ih => simp only [List.map_cons, List.sum_cons, ih]; ring

theorem sum_values_le_totalVol (recs : List TradeRecord)
    (hv : ∀ r ∈ recs, 0 ≤ r.Value)
    (hf : ∀ r ∈ recs, jsIncludes r.Flow "Export" = true ∨ jsIncludes r.Flow "Import" = true) :
    (recs.map (fun r => r.Value)).sum ≤ totalVol recs := by
  have key : (recs.map (fun r => r.Value)).sum
      ≤ (recs.map (fun r =>
          (if jsIncludes r.Flow "Export" then r.Value else 0)
            + (if jsIncludes r.Flow "Import" then r.Value else 0))).sum := by
    apply List.sum_le_sum
    intro r hr
    rcases he : jsIncludes r.Flow "Export" with _ | _ <;>
      rcases hi : jsIncludes r.Flow "Import" with _ | _
    · simpa [he, hi] using hf r hr
    · simp [he, hi]
    · simp [he, hi]
    · simp only [he, hi, if_true, ite_true]
      linarith [hv r hr]
  calc (recs.map (fun r => r.Value)).sum
      ≤ _ := key
    _ = totalVol recs := by
        rw [sum_map_add_split, totalVol, exportsTotal_eq_sum, importsTotal_eq_sum]

theorem bump_snd_sum (m : List (String × ℚ)) (k : String) (v : ℚ) :
    ((bump m k v).map Prod.snd).sum = (m.map Prod.snd).sum + v := by
  induction m with
  | nil => simp [bump]
  | cons p rest ih =>
      obtain ⟨k0, v0⟩ := p
      simp only [bump]
      split
      · simp only [List.map_cons, List.sum_cons]; ring
      · simp only [List.map_cons, List.sum_cons, ih]; ring

theorem partnerTotals_fold_sum :
    ∀ (recs : List TradeRecord) (m : List (String × ℚ)),
      (((recs.foldl (fun m r => bump m (jsToString r.Partner) r.Value) m)).map Prod.snd).sum
        = (m.map Prod.snd).sum + (recs.map (fun r => r.Value)).sum
  | [], m => by simp
  | r :: rest, m => by
      simp only [List.foldl_cons, partnerTotals_fold_sum rest, bump_snd_sum,
        List.map_cons, List.sum_cons]
      ring

theorem partnerTotals_sum (recs : List TradeRecord) :
    ((partnerTotals recs).map Prod.snd).sum = (recs.map (fun r => r.Value)).sum := by
  simpa [partnerTotals] using partnerTotals_fold_sum recs []

theorem bump_snd_nonneg (m : List (String × ℚ)) (k : String) (v : ℚ)
    (hv : 0 ≤ v) : (∀ p ∈ m, 0 ≤ p.2) → ∀ p ∈ bump m k v, 0 ≤ p.2 := by
  induction m with
  | nil => intro _ p hp; simp [bump] at hp; simp [hp, hv]
  | cons q rest ih =>
      obtain ⟨k0, v0⟩ := q
      intro hm p hp
      have h0 : (0 : ℚ) ≤ v0 := hm (k0, v0) (List.mem_cons_self _ rest)
      have hrest : ∀ p ∈ rest, 0 ≤ p.2 := fun x hx => hm x (List.mem_cons_of_mem _ hx)
      simp only [bump] at hp
      split at hp
      · rcases List.mem_cons.1 hp with rfl | hmem
        · exact add_nonneg h0 hv
        · exact hrest p hmem
      · rcases List.mem_cons.1 hp with rfl | hmem
        · exact h0
        · exact ih hrest p hmem

theorem partnerTotals_fold_nonneg :
    ∀ (recs : List TradeRecord) (m : List (String × ℚ)),
      (∀ p ∈ m, 0 ≤ p.2) → (∀ r ∈ recs, 0 ≤ r.Value) →
      ∀ p ∈ recs.foldl (fun m r => bump m (jsToString r.Partner) r.Value) m, 0 ≤ p.2
  | [], m, hm, _ => by simpa using hm
  | r :: rest, m, hm, hv => by
      simp only [List.foldl_cons]
      exact partnerTotals_fold_nonneg rest _
        (bump_snd_nonneg m _ _ (hv r (List.mem_cons_self r rest)) hm)
        (fun x hx => hv x (List.mem_cons_of_mem r hx))

theorem partnerTotals_nonneg (recs : List TradeRecord)
    (hv : ∀ r ∈ recs, 0 ≤ r.Value) : ∀ p ∈ partnerTotals recs, 0 ≤ p.2 :=
  partnerTotals_fold_nonneg recs [] (by simp) hv

theorem sum_take_le_sum (l : List ℚ) (n : ℕ) (h : ∀ x ∈ l, 0 ≤ x) :
    (l.take n).sum ≤ l.sum := by
  have hsplit := List.sum_take_add_sum_drop l n
  have hdrop : 0 ≤ (l.drop n).sum :=
    List.sum_nonneg (fun x hx => h x (List.mem_of_mem_drop hx))
  linarith

theorem top3Sum_le_values (recs : List TradeRecord)
    (hv : ∀ r ∈ recs, 0 ≤ r.Value) :
    top3Sum recs ≤ (recs.map (fun r => r.Value)).sum := by
  have hperm := List.perm_insertionSort (fun a b => b ≤ a) ((partnerTotals recs).map Prod.snd)
  have hmem : ∀ x ∈ ((partnerTotals recs).map Prod.snd).insertionSort (fun a b => b ≤ a),
      0 ≤ x := by
    intro x hx
    rcases List.mem_map.1 (hperm.mem_iff.1 hx) with ⟨p, hp, rfl⟩
    exact partnerTotals_nonneg recs hv p hp
  calc top3Sum recs
      ≤ (((partnerTotals recs).map Prod.snd).insertionSort (fun a b => b ≤ a)).sum :=
        sum_take_le_sum _ 3 hmem
    _ = ((partnerTotals recs).map Prod.snd).sum := hperm.sum_eq
    _ = (recs.map (fun r => r.Value)).sum := partnerTotals_sum recs

theorem top3Sum_nonneg (recs : List TradeRecord)
    (hv : ∀ r ∈ recs, 0 ≤ r.Value) : 0 ≤ top3Sum recs := by
  have hperm := List.perm_insertionSort (fun a b => b ≤ a) ((partnerTotals recs).map Prod.snd)
  apply List.sum_nonneg
  intro x hx
  rcases List.mem_map.1 (hperm.mem_iff.1 (List.mem_of_mem_take hx)) with ⟨p, hp, rfl⟩
  exact partnerTotals_nonneg recs hv p hp

/-- C1 (amended): for every record set and selected year in which all
trade values are non-negative and every selected-year record's flow
contains Export or Import as a substring, concentrationRisk lies in the
interval from 0 to 100, and it is exactly 0 when the selected-year
exports plus imports total is 0.  Without the flow condition the bound
can fail, because a record with an unclassified flow is counted in the
partner totals but not in the volume. -/
theorem concentrationRisk_bounds (recs : List TradeRecord) (y : ℤ)
    (hv : ∀ r ∈ recs, 0 ≤ r.Value)
    (hf : ∀ r ∈ currentYearData recs y,
      jsIncludes r.Flow "Export" = true ∨ jsIncludes r.Flow "Import" = true) :
    0 ≤ concentrationRisk (currentYearData recs y) ∧
    concentrationRisk (currentYearData recs y) ≤ 100 ∧
    (totalVol (currentYearData recs y) = 0 →
      concentrationRisk (currentYearData recs y) = 0) := by
  set cy := currentYearData recs y with hcy
  have hv2 : ∀ r ∈ cy, 0 ≤ r.Value := fun r hr =>
    hv r (List.mem_of_mem_filter hr)
  by_cases hpos : 0 < totalVol cy
  · have htop0 : 0 ≤ top3Sum cy := top3Sum_nonneg cy hv2
    have hle : top3Sum cy ≤ totalVol cy :=
      (top3Sum_le_values cy hv2).trans (sum_values_le_totalVol cy hv2 hf)
    refine ⟨?_, ?_, ?_⟩
    · rw [concentrationRisk, if_pos hpos]
      exact mul_nonneg (div_nonneg htop0 hpos.le) (by norm_num)
    · rw [concentrationRisk, if_pos hpos]
      calc top3Sum cy / totalVol cy * 100 ≤ 1 * 100 := by
            apply mul_le_mul_of_nonneg_right _ (by norm_num)
            exact (div_le_one hpos).2 hle
        _ = 100 := one_mul 100
    · intro h0
      rw [h0] at hpos
      exact absurd hpos (lt_irrefl 0)
  · rw [concentrationRisk, if_neg hpos]
    exact ⟨le_refl 0, by norm_num, fun _ => rfl⟩

/-- C1 witness: the bounds instantiated at a concrete one-record year. -/
theorem concentrationRisk_bounds_witness :
    0 ≤ concentrationRisk (currentYearData [recSmallExport] 2020) ∧
    concentrationRisk (currentYearData [recSmallExport] 2020) ≤ 100 ∧
    (totalVol (currentYearData [recSmallExport] 2020) = 0 →
      concentrationRisk (currentYearData [recSmallExport] 2020) = 0) :=
  concentrationRisk_bounds [recSmallExport] 2020 (by decide) (by decide)

/-- C1 counterexample: with all values non-negative but one record's
flow left at the Unknown default, concentrationRisk evaluates to 10100,
far above 100: the claim's bound fails as stated. -/
theorem concentrationRisk_exceeds_100 :
    (([recUnknownFlow, recSmallExport].all fun r => decide (0 ≤ r.Value)) = true) ∧
    concentrationRisk (currentYearData [recUnknownFlow, recSmallExport] 2020) = 10100 ∧
    ¬ concentrationRisk (currentYearData [recUnknownFlow, recSmallExport] 2020) ≤ 100 := by
  have hcy : currentYearData [recUnknownFlow, recSmallExport] 2020
      = [recUnknownFlow, recSmallExport] := rfl
  have hU : jsIncludes (Js.str "Unknown") "Export" = false := by decide
  have hU2 : jsIncludes (Js.str "Unknown") "Import" = false := by decide
  have hB : jsIncludes (Js.str "Export") "Export" = true := by decide
  have hB2 : jsIncludes (Js.str "Export") "Import" = false := by decide
  have hex : exportsTotal [recUnknownFlow, recSmallExport] = 1 := by
    simp [exportsTotal, List.foldl, recUnknownFlow, recSmallExport, hU, hB]
  have him : importsTotal [recUnknownFlow, recSmallExport] = 0 := by
    simp [importsTotal, List.foldl, recUnknownFlow, recSmallExport, hU2, hB2]
  have htv : totalVol [recUnknownFlow, recSmallExport] = 1 := by
    simp [totalVol, hex, him]
  have hsorted : (((partnerTotals [recUnknownFlow, recSmallExport]).map
      Prod.snd).insertionSort (fun a b => b ≤ a)) = [(100 : ℚ), 1] := by
    have hpt : partnerTotals [recUnknownFlow, recSmallExport]
        = [("Partner A", (100 : ℚ)), ("Partner B", 1)] := rfl
    rw [hpt]
    simp [List.insertionSort, List.orderedInsert]
  have hts : top3Sum [recUnknownFlow, recSmallExport] = 101 := by
    rw [top3Sum, hsorted]
    norm_num
  have hrisk : concentrationRisk [recUnknownFlow, recSmallExport] = 10100 := by
    rw [concentrationRisk, if_pos (by rw [htv]; norm_num), htv, hts]
    norm_num
  refine ⟨by decide, by rw [hcy, hrisk], by rw [hcy, hrisk]; norm_num⟩

/-- C2 (amended): the waterfall always has exactly 3 entries, the second
entry's value is the negated import total, the third entry's value is
the sum of the first two, and the third entry's fill is the
export-colored category exactly when net is strictly positive (the
source tests net with a strict inequality, so a zero net gets the color
of imports). -/
theorem waterfall_three_entries (e i : ℚ) :
    ∃ w1 w2 w3 : WEntry, waterfall e i = [w1, w2, w3] ∧ w1.value = e ∧ w2.value = -i ∧
      w3.value = w1.value + w2.value ∧
      (w3.fill = exportColor ↔ 0 < e - i) ∧ (w3.fill = importColor ↔ ¬0 < e - i) := by
  have hne : importColor ≠ exportColor := by decide
  have hne2 : exportColor ≠ importColor := by decide
  refine ⟨_, _, _, rfl, rfl, rfl, sub_eq_add_neg e i, ?_, ?_⟩
  · by_cases h : 0 < e - i
    · simp [h]
    · simp [h, hne]
  · by_cases h : 0 < e - i
    · simp [h, hne2]
    · simp [h]

/-- C2 counterexample: at a zero net (exports equal imports) the third
entry is import-colored although the net is non-negative, refuting the
claimed fill rule for net greater than or equal to 0. -/
theorem waterfall_fill_zero_net :
    ((waterfall 5 5).getLastD { name := "", value := 0, fill := "" }).fill = importColor ∧
    (0 : ℚ) ≤ 5 - 5 ∧ importColor ≠ exportColor := by
  have h : ¬(0 : ℚ) < 5 - 5 := by norm_num
  refine ⟨?_, by norm_num, by decide⟩
  simp [waterfall, List.getLastD, h]

/-- C4: the numeric coercion is total and never yields NaN on the
JSON-derived values it receives: native numbers pass through unchanged,
strings are comma-stripped, trimmed and parsed with a failed parse
resolving to 0, missing values resolve to 0, and every input yields a
rational result (a NaN parse is the none case of the parser, mapped to
0). -/
theorem safeParseFloat_total_spec :
    (∀ q : ℚ, safeParseFloat (Js.num q) = q) ∧
    (∀ s : String,
      safeParseFloat (Js.str s) = (parseFloatStr (jsTrim (removeCommas s))).getD 0) ∧
    safeParseFloat Js.undefined = 0 ∧ safeParseFloat Js.null = 0 ∧
    (∀ v : Js, ∃ q : ℚ, safeParseFloat v = q) := by
  refine ⟨fun q => rfl, ?_, rfl, rfl, fun v => ⟨_, rfl⟩⟩
  intro s
  by_cases hs : s = ""
  · subst hs; rfl
  · have ht : truthy (Js.str s) = true := by simp [truthy, hs]
    cases hp : parseFloatStr (jsTrim (removeCommas s)) <;>
      simp [safeParseFloat, ht, hp, jsToString]

/-- C5 (amended): for records whose flow description is a string (the
only case where the source's includes call does not throw), aggregation
adds a record's value to the exports bucket exactly when the flow
contains Export as a substring and to the imports bucket exactly when it
contains Import; the two substring tests are independent, so a flow
containing both substrings is added to both buckets, and a record whose
flow contains at most one of the two substrings is added to at most one
bucket. -/
theorem flow_substring_buckets (r : TradeRecord) (recs : List TradeRecord)
    (_hstr : isStrJs r.Flow = true) :
    exportsTotal (r :: recs)
        = (if jsIncludes r.Flow "Export" then r.Value else 0) + exportsTotal recs ∧
    importsTotal (r :: recs)
        = (if jsIncludes r.Flow "Import" then r.Value else 0) + importsTotal recs ∧
    (¬(jsIncludes r.Flow "Export" = true ∧ jsIncludes r.Flow "Import" = true) →
      (if jsIncludes r.Flow "Export" then r.Value else 0) = 0 ∨
      (if jsIncludes r.Flow "Import" then r.Value else 0) = 0) := by
  refine ⟨?_, ?_, ?_⟩
  · rw [exportsTotal_eq_sum, exportsTotal_eq_sum, List.map_cons, List.sum_cons]
  · rw [importsTotal_eq_sum, importsTotal_eq_sum, List.map_cons, List.sum_cons]
  · intro h
    rcases he : jsIncludes r.Flow "Export" with _ | _
    · left; simp [he]
    · right
      rcases hi : jsIncludes r.Flow "Import" with _ | _
      · simp [hi]
      · exact absurd ⟨he, hi⟩ h

/-- C5 witness: the bucket characterization at a concrete export record. -/
theorem flow_substring_buckets_witness :
    exportsTotal [recSmallExport]
        = (if jsIncludes recSmallExport.Flow "Export" then recSmallExport.Value else 0)
          + exportsTotal [] ∧
    importsTotal [recSmallExport]
        = (if jsIncludes recSmallExport.Flow "Import" then recSmallExport.Value else 0)
          + importsTotal [] ∧
    (¬(jsIncludes recSmallExport.Flow "Export" = true ∧
        jsIncludes recSmallExport.Flow "Import" = true) →
      (if jsIncludes recSmallExport.Flow "Export" then recSmallExport.Value else 0) = 0 ∨
      (if jsIncludes recSmallExport.Flow "Import" then recSmallExport.Value else 0) = 0) :=
  flow_substring_buckets recSmallExport [] (by decide)

/-- C5 counterexample: a flow description containing both substrings is
added to both the exports and the imports bucket, refuting the claimed
exactly-one-of-three classification. -/
theorem flow_both_buckets :
    jsIncludes recBothFlows.Flow "Export" = true ∧
    jsIncludes recBothFlows.Flow "Import" = true ∧
    exportsTotal [recBothFlows] = 5 ∧ importsTotal [recBothFlows] = 5 ∧ (5 : ℚ) ≠ 0 := by
  have hE : jsIncludes (Js.str "Export and Import") "Export" = true := by decide
  have hI : jsIncludes (Js.str "Export and Import") "Import" = true := by decide
  refine ⟨by decide, by decide, ?_, ?_, by norm_num⟩
  · simp [exportsTotal, List.foldl, recBothFlows, hE]
  · simp [importsTotal, List.foldl, recBothFlows, hI]

/-- C7: with fewer than 2 history points the fit is the degenerate
fallback: slope 0 and intercept the first (single) point's metric value,
or 0 for an empty history. -/
theorem calculateLinearRegression_degenerate (data : List YearPoint) (key : YearPoint → ℚ)
    (h : data.length < 2) :
    calculateLinearRegression data key = (0, (data.head?.map key).getD 0) := by
  cases data with
  | nil => rfl
  | cons p rest =>
      simp only [calculateLinearRegression]
      rw [if_pos h]
      rfl

/-- C7 witness: a one-point history fits to slope 0 and intercept the
point's value. -/
theorem calculateLinearRegression_degenerate_witness :
    calculateLinearRegression [{ year := 2020, exports := 7, imports := 3 }]
      (fun p => p.exports) = (0, 7) := by
  rw [calculateLinearRegression_degenerate _ _ (by decide)]
  rfl

theorem ok_bind {ε α β : Type} (a : α) (f : α → Except ε β) :
    (Except.ok a >>= f) = f a := rfl

theorem error_bind {ε α β : Type} (e : ε) (f : α → Except ε β) :
    ((Except.error e : Except ε α) >>= f) = Except.error e := rfl

theorem except_pure {ε α : Type} (a : α) : (pure a : Except ε α) = Except.ok a := rfl

theorem isStrJs_iff (v : Js) : isStrJs v = true ↔ ∃ s, v = Js.str s := by
  cases v <;> simp [isStrJs]

theorem normTradeRow_ok (row : Js) (h1 : row ≠ Js.null) (h2 : row ≠ Js.undefined) :
    normTradeRow row = .ok (normRowPure row) := by
  cases row with
  | null => exact absurd rfl h1
  | undefined => exact absurd rfl h2
  | bool b => rfl
  | num q => rfl
  | str s => rfl
  | arr xs => rfl
  | obj fs => rfl

theorem mapNorm_ok : ∀ (rows : List Js), (∀ r ∈ rows, r ≠ Js.null ∧ r ≠ Js.undefined) →
    mapNorm rows = .ok (rows.map normRowPure)
  | [], _ => rfl
  | r :: rest, h => by
      have hr := h r (List.mem_cons_self r rest)
      have hrest := mapNorm_ok rest (fun x hx => h x (List.mem_cons_of_mem r hx))
      simp only [mapNorm]
      rw [normTradeRow_ok r hr.1 hr.2, hrest]
      rfl

theorem filterComm_ok : ∀ (l : List TradeRecord),
    (∀ d ∈ l, isStrJs d.Commodity = true) →
    filterComm l = .ok (l.filter
      (fun d => !containsSub (lowerStr (jsAsStr d.Commodity)) "all commodities"))
  | [], _ => rfl
  | d :: rest, h => by
      obtain ⟨s, hs⟩ := (isStrJs_iff _).1 (h d (List.mem_cons_self d rest))
      have hrest := filterComm_ok rest (fun x hx => h x (List.mem_cons_of_mem d hx))
      simp only [filterComm, hs, jsToLowerE, hrest, List.filter_cons, jsAsStr,
        ok_bind, except_pure]
      by_cases hc : containsSub (lowerStr s) "all commodities"
      · simp [hc]
      · simp [hc]

/-- C3 (amended): the raw-to-canonical normalization returns the empty
list on any falsy or non-array input, and on an array whose rows are all
non-null (and non-undefined) values such that every row kept by the year
filter carries a string commodity text, every raw row yields exactly one
TradeRecord which the two filters then keep or drop, without any thrown
error.  A null row, or a year-kept row whose commodity is a truthy
non-string, makes the normalizer throw instead (see the
counterexample). -/
theorem tradeData_total_on_rows :
    (∀ j : Js, (∀ rows : List Js, j ≠ Js.arr rows) → tradeData j = .ok []) ∧
    (∀ rows : List Js,
      (∀ r ∈ rows, r ≠ Js.null ∧ r ≠ Js.undefined) →
      (∀ r ∈ rows, 0 < (normRowPure r).Year → isStrJs (normRowPure r).Commodity = true) →
      tradeData (Js.arr rows) = .ok
        (((rows.map normRowPure).filter (fun d => 0 < d.Year)).filter
          (fun d => !containsSub (lowerStr (jsAsStr d.Commodity)) "all commodities"))) := by
  constructor
  · intro j hj
    cases j with
    | arr xs => exact absurd rfl (hj xs)
    | null => rfl
    | undefined => rfl
    | bool b => cases b <;> rfl
    | num q => simp [tradeData]
    | str s => simp [tradeData]
    | obj fs => rfl
  · intro rows h1 h2
    have hmap := mapNorm_ok rows h1
    have hstr : ∀ d ∈ (rows.map normRowPure).filter (fun d => 0 < d.Year),
        isStrJs d.Commodity = true := by
      intro d hd
      rcases List.mem_filter.1 hd with ⟨hdm, hdy⟩
      rcases List.mem_map.1 hdm with ⟨r, hr, rfl⟩
      exact h2 r hr (of_decide_eq_true hdy)
    have hdef : tradeData (Js.arr rows)
        = (mapNorm rows >>= fun rs => filterComm (rs.filter (fun d => 0 < d.Year))) := rfl
    rw [hdef, hmap, ok_bind]
    exact filterComm_ok _ hstr

/-- C3 witness: the totality result at a concrete one-row array. -/
theorem tradeData_total_on_rows_witness :
    tradeData (Js.arr [oilRow]) = .ok
      ((([oilRow].map normRowPure).filter (fun d => 0 < d.Year)).filter
        (fun d => !containsSub (lowerStr (jsAsStr d.Commodity)) "all commodities")) :=
  tradeData_total_on_rows.2 [oilRow]
    (by intro r hr; simp only [List.mem_singleton] at hr; subst hr
        exact ⟨by simp [oilRow], by simp [oilRow]⟩)
    (by intro r hr _; simp only [List.mem_singleton] at hr; subst hr; rfl)

/-- C3 counterexample: an array containing a null row makes tradeData
throw (property access on null), refuting the never-throws part of the
claim; the input is an indexable collection, yet the result is an error
rather than the empty sequence or a dropped row. -/
theorem tradeData_throws_on_null_row :
    tradeData (Js.arr [Js.null]) = Except.error () := rfl

theorem filterComm_ok_mem : ∀ (l out : List TradeRecord), filterComm l = .ok out →
    ∀ d ∈ out, d ∈ l ∧ commodityKept d.Commodity = true
  | [], out, h => by
      intro d hd
      simp only [filterComm, Except.ok.injEq] at h
      subst h
      exact absurd hd (List.not_mem_nil d)
  | d0 :: rest, out, h => by
      intro d hd
      rw [filterComm] at h
      rcases hlc : jsToLowerE d0.Commodity with e | lc
      · rw [hlc, error_bind] at h
        exact Except.noConfusion h
      · obtain ⟨s, hs, hlcs⟩ : ∃ s, d0.Commodity = Js.str s ∧ lc = lowerStr s := by
          cases hc : d0.Commodity <;> rw [hc] at hlc <;>
            simp only [jsToLowerE, Except.ok.injEq, reduceCtorEq] at hlc
          exact ⟨_, rfl, hlc.symm⟩
        rw [hlc, ok_bind] at h
        rcases hfc : filterComm rest with e | rest2
        · rw [hfc, error_bind] at h
          exact Except.noConfusion h
        · have ih := filterComm_ok_mem rest rest2 hfc
          rw [hfc, ok_bind, except_pure, Except.ok.injEq] at h
          by_cases hcs : containsSub lc "all commodities"
          · rw [if_pos hcs] at h
            subst h
            rcases ih d hd with ⟨hmem, hkept⟩
            exact ⟨List.mem_cons_of_mem d0 hmem, hkept⟩
          · rw [if_neg hcs] at h
            subst h
            rcases List.mem_cons.1 hd with rfl | hmem
            · refine ⟨List.mem_cons_self d rest, ?_⟩
              rw [hs, commodityKept]
              subst hlcs
              simp [hcs]
            · rcases ih d hmem with ⟨hmem2, hkept⟩
              exact ⟨List.mem_cons_of_mem d0 hmem2, hkept⟩

/-- C6: every record in a successful tradeData output has a positive
year and a string commodity whose lower-casing does not contain the
all-commodities marker: rows with non-positive years or aggregate
commodity lines are excluded. -/
theorem tradeData_output_filtered (j : Js) (recs : List TradeRecord)
    (h : tradeData j = .ok recs) :
    ∀ r ∈ recs, 0 < r.Year ∧ commodityKept r.Commodity = true := by
  intro r hr
  cases j
  case arr rows =>
    have hdef : tradeData (Js.arr rows)
        = (mapNorm rows >>= fun rs => filterComm (rs.filter (fun d => 0 < d.Year))) := rfl
    rcases hm : mapNorm rows with e | recs0
    · rw [hdef, hm, error_bind] at h
      exact Except.noConfusion h
    · rw [hdef, hm, ok_bind] at h
      obtain ⟨hmem, hkept⟩ := filterComm_ok_mem _ _ h r hr
      rcases List.mem_filter.1 hmem with ⟨_, hy⟩
      exact ⟨of_decide_eq_true hy, hkept⟩
  all_goals
    simp only [tradeData, ite_self] at h
    simp only [Except.ok.injEq] at h
    subst h
    exact absurd hr (List.not_mem_nil r)

/-- C6 witness: the filter result at a concrete kept record. -/
theorem tradeData_output_filtered_witness :
    0 < recOil.Year ∧ commodityKept recOil.Commodity = true :=
  tradeData_output_filtered (Js.arr [oilRow]) [recOil] rfl recOil
    (List.mem_singleton.mpr rfl)

/-- C8: for every non-empty yearly history the forecast output is the
historical sequence followed by exactly two projected points, marked
isForecast, at the last historical year plus one and plus two, with
exports and imports projected by the independent per-metric fits. -/
theorem forecastData_structure (history : List YearPoint) (h : history ≠ []) :
    forecastData history
      = history.map toHistPoint ++
        [{ year := (history.getLastD { year := 0, exports := 0, imports := 0 }).year + 1,
           exports := (calculateLinearRegression history (fun p => p.exports)).1
               * (((history.getLastD { year := 0, exports := 0, imports := 0 }).year + 1 : ℤ) : ℚ)
             + (calculateLinearRegression history (fun p => p.exports)).2,
           imports := (calculateLinearRegression history (fun p => p.imports)).1
               * (((history.getLastD { year := 0, exports := 0, imports := 0 }).year + 1 : ℤ) : ℚ)
             + (calculateLinearRegression history (fun p => p.imports)).2,
           isForecast := true },
         { year := (history.getLastD { year := 0, exports := 0, imports := 0 }).year + 2,
           exports := (calculateLinearRegression history (fun p => p.exports)).1
               * (((history.getLastD { year := 0, exports := 0, imports := 0 }).year + 2 : ℤ) : ℚ)
             + (calculateLinearRegression history (fun p => p.exports)).2,
           imports := (calculateLinearRegression history (fun p => p.imports)).1
               * (((history.getLastD { year := 0, exports := 0, imports := 0 }).year + 2 : ℤ) : ℚ)
             + (calculateLinearRegression history (fun p => p.imports)).2,
           isForecast := true }] := by
  have he : history.isEmpty = false := by
    cases history with
    | nil => exact absurd rfl h
    | cons a l => rfl
  simp [forecastData, he]

/-- C8 witness: the forecast shape at a one-point history. -/
theorem forecastData_structure_witness :
    forecastData histW
      = histW.map toHistPoint ++
        [{ year := (histW.getLastD { year := 0, exports := 0, imports := 0 }).year + 1,
           exports := (calculateLinearRegression histW (fun p => p.exports)).1
               * (((histW.getLastD { year := 0, exports := 0, imports := 0 }).year + 1 : ℤ) : ℚ)
             + (calculateLinearRegression histW (fun p => p.exports)).2,
           imports := (calculateLinearRegression histW (fun p => p.imports)).1
               * (((histW.getLastD { year := 0, exports := 0, imports := 0 }).year + 1 : ℤ) : ℚ)
             + (calculateLinearRegression histW (fun p => p.imports)).2,
           isForecast := true },
         { year := (histW.getLastD { year := 0, exports := 0, imports := 0 }).year + 2,
           exports := (calculateLinearRegression histW (fun p => p.exports)).1
               * (((histW.getLastD { year := 0, exports := 0, imports := 0 }).year + 2 : ℤ) : ℚ)
             + (calculateLinearRegression histW (fun p => p.exports)).2,
           imports := (calculateLinearRegression histW (fun p => p.imports)).1
               * (((histW.getLastD { year := 0, exports := 0, imports := 0 }).year + 2 : ℤ) : ℚ)
             + (calculateLinearRegression histW (fun p => p.imports)).2,
           isForecast := true }] :=
  forecastData_structure histW (by simp [histW])

/-- C9 (amended): in the self-contained normalizer wbData the write is
gated by an exact indicator-code match (any code equal to none of the
four spellings leaves the values untouched, only materializing the
zero-initialized year entry), and the two example rows for 2021 merge
into the single entry with GDP growth 4.5 and inflation 6.2.  The
precomputed variant formattedWB instead matches by substring, so the
exact-match claim fails there (see the counterexample). -/
theorem wbData_exact_code_match :
    (wbData (Js.arr [wbRowG, wbRowC])
        = .ok [{ Year := 2021, GDP := 9 / 2, Inflation := 31 / 5 }]) ∧
    (∀ (m : List WBEntry) (y : ℤ) (code v : Js),
      (∀ s : String, code = Js.str s →
        s ≠ "NY.GDP.MKTP.KD.ZG" ∧ s ≠ "WB_WDI_NY_GDP_MKTP_KD_ZG" ∧
        s ≠ "FP.CPI.TOTL.ZG" ∧ s ≠ "WB_WDI_FP_CPI_TOTL_ZG") →
      wbApply m y code v = wbEnsure m y) := by
  constructor
  · have h1 : wbData (Js.arr [wbRowG, wbRowC])
        = .ok [{ Year := 2021, GDP := mkRat 45 10, Inflation := mkRat 62 10 }] := rfl
    rw [h1]
    simp only [Except.ok.injEq, List.cons.injEq, WBEntry.mk.injEq]
    norm_num [Rat.mkRat_eq_div]
  · intro m y code v hc
    cases code with
    | str t =>
        obtain ⟨n1, n2, n3, n4⟩ := hc t rfl
        simp [wbApply, jsSEqStr, n1, n2, n3, n4]
    | null => simp [wbApply, jsSEqStr]
    | undefined => simp [wbApply, jsSEqStr]
    | bool b => simp [wbApply, jsSEqStr]
    | num q => simp [wbApply, jsSEqStr]
    | arr xs => simp [wbApply, jsSEqStr]
    | obj fs => simp [wbApply, jsSEqStr]

/-- C9 witness: a code equal to none of the four spellings writes no
value. -/
theorem wbData_exact_code_match_witness :
    wbApply [] 2020 (Js.str "SOME.OTHER.CODE") (Js.num 1) = wbEnsure [] 2020 :=
  wbData_exact_code_match.2 [] 2020 (Js.str "SOME.OTHER.CODE") (Js.num 1)
    (by intro s hs
        injection hs with h
        subst h
        exact ⟨by decide, by decide, by decide, by decide⟩)

/-- C9 counterexample: in the precomputed variant formattedWB, a code
that exactly matches none of the known spellings but contains GDP as a
substring still has its value written into the GDP field. -/
theorem formattedWB_substring_written :
    formattedWB (Js.arr [fwRowCex])
        = .ok [{ Year := 2021, GDP := some 3, Inflation := some 0 }] ∧
    "XGDPX" ≠ "NY.GDP.MKTP.KD.ZG" ∧ "XGDPX" ≠ "WB_WDI_NY_GDP_MKTP_KD_ZG" ∧
    "XGDPX" ≠ "FP.CPI.TOTL.ZG" ∧ "XGDPX" ≠ "WB_WDI_FP_CPI_TOTL_ZG" := by
  refine ⟨?_, by decide, by decide, by decide, by decide⟩
  have h1 : formattedWB (Js.arr [fwRowCex])
      = .ok [{ Year := 2021, GDP := some (mkRat 3 1), Inflation := some 0 }] := rfl
  rw [h1]
  simp only [Except.ok.injEq, List.cons.injEq, WBEntryF.mk.injEq, Option.some.injEq]
  norm_num [Rat.mkRat_eq_div]

theorem bumpCG_mem_name (m : List CGroup) (k : String) (v w : ℚ) :
    ∃ g ∈ bumpCG m k v w, g.name = k := by
  induction m with
  | nil =>
      refine ⟨{ name := k, value := v, weight := w }, ?_, rfl⟩
      simp [bumpCG]
  | cons g0 rest ih =>
      by_cases hg : g0.name = k
      · refine ⟨{ g0 with value := g0.value + v, weight := g0.weight + w }, ?_, hg⟩
        simp [bumpCG, hg]
      · obtain ⟨g, hmem, hname⟩ := ih
        refine ⟨g, ?_, hname⟩
        simp only [bumpCG, if_neg hg]
        exact List.mem_cons_of_mem g0 hmem

theorem bumpCG_preserves (m : List CGroup) (k : String) (v w : ℚ) (n : String)
    (h : ∃ g ∈ m, g.name = n) : ∃ g ∈ bumpCG m k v w, g.name = n := by
  induction m with
  | nil =>
      rcases h with ⟨g, hg, _⟩
      exact absurd hg (List.not_mem_nil g)
  | cons g0 rest ih =>
      rcases h with ⟨g, hg, hname⟩
      rcases List.mem_cons.1 hg with rfl | hmem
      · by_cases hk : g.name = k
        · refine ⟨{ g with value := g.value + v, weight := g.weight + w }, ?_, hname⟩
          simp [bumpCG, hk]
        · refine ⟨g, ?_, hname⟩
          simp only [bumpCG, if_neg hk]
          exact List.mem_cons_self g (bumpCG rest k v w)
      · by_cases hk : g0.name = k
        · refine ⟨g, ?_, hname⟩
          simp only [bumpCG, if_pos hk]
          exact List.mem_cons_of_mem _ hmem
        · obtain ⟨g2, hg2, hn2⟩ := ih ⟨g, hmem, hname⟩
          refine ⟨g2, ?_, hn2⟩
          simp only [bumpCG, if_neg hk]
          exact List.mem_cons_of_mem g0 hg2

theorem commodityGroups_fold_preserves :
    ∀ (recs : List TradeRecord) (m : List CGroup) (n : String),
      (∃ g ∈ m, g.name = n) →
      ∃ g ∈ recs.foldl
        (fun m r => bumpCG m (cleanCommodityName (jsAsStr r.Commodity)) r.Value r.Weight) m,
        g.name = n
  | [], m, n, h => by simpa using h
  | r :: rest, m, n, h => by
      simp only [List.foldl_cons]
      exact commodityGroups_fold_preserves rest _ n (bumpCG_preserves m _ _ _ n h)

theorem commodityGroups_mem_aux :
    ∀ (recs : List TradeRecord) (m : List CGroup) (r : TradeRecord), r ∈ recs →
      ∃ g ∈ recs.foldl
        (fun m r => bumpCG m (cleanCommodityName (jsAsStr r.Commodity)) r.Value r.Weight) m,
        g.name = cleanCommodityName (jsAsStr r.Commodity)
  | [], _, r, hr => absurd hr (List.not_mem_nil r)
  | r0 :: rest, m, r, hr => by
      simp only [List.foldl_cons]
      rcases List.mem_cons.1 hr with rfl | hmem
      · exact commodityGroups_fold_preserves rest _ _ (bumpCG_mem_name m _ _ _)
      · exact commodityGroups_mem_aux rest _ r hmem

/-- C10 (amended): the normalizer stores the raw commodity field text
verbatim (the raw field chain, or the Unknown default), and the cleanup
that strips the leading numeric code and the semicolon tail happens only
inside the commodity rollup, which groups every record under its cleaned
name. -/
theorem commodity_raw_then_cleaned_in_rollup :
    (∀ (row : Js) (t : TradeRecord), normTradeRow row = .ok t →
      t.Commodity = jsOr (getFieldT row "Traded_Commodities")
        (jsOr (getFieldT row "commodity_description") (Js.str "Unknown"))) ∧
    (∀ (recs : List TradeRecord) (r : TradeRecord), r ∈ recs →
      ∃ g ∈ commodityGroups recs, g.name = cleanCommodityName (jsAsStr r.Commodity)) := by
  constructor
  · intro row t h
    have hrow1 : row ≠ Js.null := by
      rintro rfl
      exact Except.noConfusion h
    have hrow2 : row ≠ Js.undefined := by
      rintro rfl
      exact Except.noConfusion h
    rw [normTradeRow_ok row hrow1 hrow2, Except.ok.injEq] at h
    subst h
    rfl
  · intro recs r hr
    exact commodityGroups_mem_aux recs [] r hr

/-- C10 witness: the raw-text result at the concrete oil row. -/
theorem commodity_raw_then_cleaned_witness :
    recOil.Commodity = jsOr (getFieldT oilRow "Traded_Commodities")
      (jsOr (getFieldT oilRow "commodity_description") (Js.str "Unknown")) :=
  commodity_raw_then_cleaned_in_rollup.1 oilRow recOil rfl

/-- C10 counterexample: the kept record's commodity field is the raw
text, not the cleaned text the claim asserts; the cleanup of that very
text happens only in the rollup. -/
theorem commodity_not_cleaned_at_normalization :
    tradeData (Js.arr [oilRow]) = .ok [recOil] ∧
    recOil.Commodity = Js.str "12 - Oil; crude" ∧
    cleanCommodityName "12 - Oil; crude" = "Oil" ∧
    "12 - Oil; crude" ≠ "Oil" := ⟨rfl, rfl, by decide, by decide⟩
